import Mathlib

/-!
Verification development for the flask-backend core of the
federated-learning-with-blockchain repository
(`fabric-samples/federated-learning/flask-backend/app.py`).

The embedding models JSON numeric values as exact rationals, Python dicts
as association lists in insertion order (keys are distinct in every dict
the program builds), and Python runtime exceptions (`TypeError` from
`sum`/`zip` on mixed scalar/vector data, `IndexError` on `values[0]`)
as `Except` errors.  External effects (the `peer` CLI subprocess and
`json.loads`) are modelled as explicit functional parameters.
-/


namespace VPSA

/-- A JSON value stored inside a weight / prototype mapping: either a
scalar number or a vector of numbers, as in the Python code's
`isinstance(values[0], list)` dichotomy. -/
inductive JVal where
  | num (q : ℚ)
  | vec (elems : List ℚ)
deriving DecidableEq

/-- A weight or prototype mapping: a Python dict in insertion order. -/
abbrev WeightMap := List (String × JVal)

/-- One local model record as consumed by the aggregator.  The
`weights` / `prototypes` fields hold the parsed form of the JSON strings
stored on the ledger (`json.loads(model.get('weights', '{}'))`); a record
missing the field parses to the empty mapping.  `accuracy`, `loss` and
`alignmentLoss` are `none` when the corresponding dict key is missing
(`m.get('accuracy', 0)` then defaults them to `0`). -/
structure LocalModel where
  domain : Option String
  weights : WeightMap
  prototypes : WeightMap
  accuracy : Option ℚ
  loss : Option ℚ
  alignmentLoss : Option ℚ
deriving DecidableEq

/-- Python runtime errors that can escape the aggregation loops:
`typeMismatch` models the `TypeError` raised by `sum` / `zip` / `+=` on
mixed scalar-vector data, `emptyIndex` the `IndexError` of `values[0]`
on an empty list. -/
inductive AggErr where
  | typeMismatch
  | emptyIndex
deriving DecidableEq

/-- Python dict lookup `w[key]` / membership `key in w` on the
association-list model: first matching key wins. -/
def lookup : WeightMap → String → Option JVal
  | [], _ => none
  | (k', v) :: rest, k => if k' = k then some v else lookup rest k

/-- Python `w.keys()` in insertion order. -/
def keys (w : WeightMap) : List String := w.map Prod.fst

/-- `sum(values)` succeeds only when every value is a scalar; a vector
member raises `TypeError` (modelled as `none`).  Returns the scalars in
order. -/
def asNums : List JVal → Option (List ℚ)
  | [] => some []
  | JVal.num q :: rest => (asNums rest).map (fun qs => q :: qs)
  | JVal.vec _ :: _ => none

/-- `zip(*values)` succeeds only when every value is a vector; a scalar
member raises `TypeError` (modelled as `none`).  Returns the vectors in
order. -/
def asVecs : List JVal → Option (List (List ℚ))
  | [] => some []
  | JVal.vec v :: rest => (asVecs rest).map (fun vs => v :: vs)
  | JVal.num _ :: _ => none

/-- Length of `zip(*vecs)`: the minimum length of the zipped vectors
(`none` accumulator = no vector seen yet). -/
def minLenAux : List (List ℚ) → Option ℕ
  | [] => none
  | v :: vs =>
    match minLenAux vs with
    | none => some v.length
    | some n => some (min v.length n)

def minLen (vecs : List (List ℚ)) : ℕ := (minLenAux vecs).getD 0

/-- `sum(x)` where `x` is the `i`-th tuple produced by `zip(*vecs)`:
the sum of the `i`-th entries of all vectors (only used for
`i < minLen vecs`, where every `getD` hits a real entry). -/
def colSum (vecs : List (List ℚ)) (i : ℕ) : ℚ :=
  (vecs.map (fun v => v.getD i 0)).sum

/-- One key's aggregate in the source pass of `aggregate_weights`
(and, with the other weight, the fresh-key case of the target pass):
`[sum(x)/len(x) * w for x in zip(*values)]` for vectors,
`sum(values) / len(values) * w` for scalars. -/
def aggValue (values : List JVal) (scale : ℚ) : Except AggErr JVal :=
  match values with
  | [] => Except.error AggErr.emptyIndex
  | JVal.vec _ :: _ =>
    match asVecs values with
    | none => Except.error AggErr.typeMismatch
    | some vecs =>
      Except.ok (JVal.vec ((List.range (minLen vecs)).map
        (fun i => colSum vecs i / (values.length : ℚ) * scale)))
  | JVal.num _ :: _ =>
    match asNums values with
    | none => Except.error AggErr.typeMismatch
    | some qs =>
      Except.ok (JVal.num (qs.sum / (values.length : ℚ) * scale))

/-- One key's aggregate in `aggregate_prototypes`: the same computation
without the weight factor. -/
def aggMean (values : List JVal) : Except AggErr JVal :=
  match values with
  | [] => Except.error AggErr.emptyIndex
  | JVal.vec _ :: _ =>
    match asVecs values with
    | none => Except.error AggErr.typeMismatch
    | some vecs =>
      Except.ok (JVal.vec ((List.range (minLen vecs)).map
        (fun i => colSum vecs i / (values.length : ℚ))))
  | JVal.num _ :: _ =>
    match asNums values with
    | none => Except.error AggErr.typeMismatch
    | some qs =>
      Except.ok (JVal.num (qs.sum / (values.length : ℚ)))

/-- The partitioning loop of `aggregate_weights`: models whose
`domain` field equals `'source'` go to the first list, every other
model (including `domain` missing or any other value) to the second,
in input order. -/
def splitModels (local_models : List LocalModel) :
    List WeightMap × List WeightMap :=
  local_models.foldl
    (fun acc m =>
      if m.domain = some "source" then (acc.1 ++ [m.weights], acc.2)
      else (acc.1, acc.2 ++ [m.weights]))
    ([], [])

/-- The source pass body: iterate the keys of the FIRST source model,
aggregating over the source models that have each key.  Insertion order
of the result dict follows the key order; an exception aborts the whole
call. -/
def srcKeys (ks : List String) (sws : List WeightMap) (sw : ℚ) :
    Except AggErr WeightMap :=
  match ks with
  | [] => Except.ok []
  | k :: rest =>
    match aggValue (sws.filterMap (fun w => lookup w k)) sw with
    | Except.error e => Except.error e
    | Except.ok v =>
      match srcKeys rest sws sw with
      | Except.error e => Except.error e
      | Except.ok r => Except.ok ((k, v) :: r)

/-- `if source_weights:` guard around the source pass. -/
def srcPass (sws : List WeightMap) (sw : ℚ) : Except AggErr WeightMap :=
  match sws with
  | [] => Except.ok []
  | w0 :: _ => srcKeys (keys w0) sws sw

/-- Python dict assignment to an existing key keeps its position. -/
def setVal : WeightMap → String → JVal → WeightMap
  | [], _, _ => []
  | (k', v') :: rest, k, v =>
    if k' = k then (k, v) :: rest else (k', v') :: setVal rest k v

/-- One key of the target pass, mutating the accumulated dict:
merge into an existing entry (`zip` truncates again against the stored
vector; scalar `+=`), or insert a fresh scaled mean.  Mixing a stored
scalar with target vectors (or vice versa) raises `TypeError`. -/
def tgtStep (agg : WeightMap) (tws : List WeightMap) (tw : ℚ)
    (k : String) : Except AggErr WeightMap :=
  let values := tws.filterMap (fun w => lookup w k)
  match values with
  | [] => Except.error AggErr.emptyIndex
  | JVal.vec _ :: _ =>
    match asVecs values with
    | none => Except.error AggErr.typeMismatch
    | some vecs =>
      match lookup agg k with
      | some (JVal.vec a) =>
        Except.ok (setVal agg k (JVal.vec
          ((List.range (min a.length (minLen vecs))).map
            (fun i => a.getD i 0 + colSum vecs i / (values.length : ℚ) * tw))))
      | some (JVal.num _) => Except.error AggErr.typeMismatch
      | none =>
        Except.ok (agg ++ [(k, JVal.vec ((List.range (minLen vecs)).map
          (fun i => colSum vecs i / (values.length : ℚ) * tw)))])
  | JVal.num _ :: _ =>
    match asNums values with
    | none => Except.error AggErr.typeMismatch
    | some qs =>
      match lookup agg k with
      | some (JVal.num a) =>
        Except.ok (setVal agg k (JVal.num
          (a + qs.sum / (values.length : ℚ) * tw)))
      | some (JVal.vec _) => Except.error AggErr.typeMismatch
      | none =>
        Except.ok (agg ++ [(k, JVal.num (qs.sum / (values.length : ℚ) * tw))])

/-- The in-place merge branch of `tgtStep` as a standalone function of
the stored value `a` and the collected target values: vector case
`zip(aggregated[key], zip(*values))` (truncating to the shorter of the
stored vector and the target columns), scalar case `aggregated[key] +=
sum(values)/len(values) * tw`; mixing a stored scalar with target
vectors or vice versa raises `TypeError`.  Used to state what
`aggregate_weights` assigns to a key present in both partitions. -/
def tgtMerge (a : JVal) (values : List JVal) (tw : ℚ) :
    Except AggErr JVal :=
  match values with
  | [] => Except.error AggErr.emptyIndex
  | JVal.vec _ :: _ =>
    match asVecs values with
    | none => Except.error AggErr.typeMismatch
    | some vecs =>
      match a with
      | JVal.vec av =>
        Except.ok (JVal.vec
          ((List.range (min av.length (minLen vecs))).map
            (fun i => av.getD i 0 + colSum vecs i / (values.length : ℚ) * tw)))
      | JVal.num _ => Except.error AggErr.typeMismatch
  | JVal.num _ :: _ =>
    match asNums values with
    | none => Except.error AggErr.typeMismatch
    | some qs =>
      match a with
      | JVal.num aq =>
        Except.ok (JVal.num (aq + qs.sum / (values.length : ℚ) * tw))
      | JVal.vec _ => Except.error AggErr.typeMismatch

/-- The target pass loop over the keys of the FIRST target model. -/
def tgtKeys (ks : List String) (agg : WeightMap) (tws : List WeightMap)
    (tw : ℚ) : Except AggErr WeightMap :=
  match ks with
  | [] => Except.ok agg
  | k :: rest =>
    match tgtStep agg tws tw k with
    | Except.error e => Except.error e
    | Except.ok agg' => tgtKeys rest agg' tws tw

/-- `if target_weights:` guard around the target pass. -/
def tgtPass (agg : WeightMap) (tws : List WeightMap) (tw : ℚ) :
    Except AggErr WeightMap :=
  match tws with
  | [] => Except.ok agg
  | w0 :: _ => tgtKeys (keys w0) agg tws tw

/-- `VPSAAggregator.aggregate_weights`, returning the merged mapping
(the Python code returns its `json.dumps`; serialization is injective
on mappings and is dropped here). -/
def aggregate_weights (local_models : List LocalModel)
    (source_weight target_weight : ℚ) : Except AggErr WeightMap :=
  let st := splitModels local_models
  match srcPass st.1 source_weight with
  | Except.error e => Except.error e
  | Except.ok agg => tgtPass agg st.2 target_weight

/-- The per-key loop of `aggregate_prototypes` over the keys of the
FIRST model's prototypes. -/
def protoKeys (ks : List String) (ps : List WeightMap) :
    Except AggErr WeightMap :=
  match ks with
  | [] => Except.ok []
  | k :: rest =>
    match aggMean (ps.filterMap (fun p => lookup p k)) with
    | Except.error e => Except.error e
    | Except.ok v =>
      match protoKeys rest ps with
      | Except.error e => Except.error e
      | Except.ok r => Except.ok ((k, v) :: r)

/-- `VPSAAggregator.aggregate_prototypes`.  `alignment_weight` is
accepted and never used, exactly as in the source. -/
def aggregate_prototypes (local_models : List LocalModel)
    (alignment_weight : ℚ) : Except AggErr WeightMap :=
  let all_prototypes := local_models.map (fun m => m.prototypes)
  match all_prototypes with
  | [] => Except.ok []
  | p0 :: _ => protoKeys (keys p0) all_prototypes

/-- Result of `VPSAAggregator.compute_metrics`. -/
structure Metrics where
  global_accuracy : ℚ
  global_loss : ℚ
  alignment_score : ℚ
deriving DecidableEq

/-- `VPSAAggregator.compute_metrics`: unweighted means with
`m.get(field, 0)` defaulting, `alignment_score = 1 - mean`, and `0`
components on the empty list (Python truthiness of the empty list). -/
def compute_metrics (local_models : List LocalModel) : Metrics :=
  let accuracies := local_models.map (fun m => m.accuracy.getD 0)
  let losses := local_models.map (fun m => m.loss.getD 0)
  let alignment_losses := local_models.map (fun m => m.alignmentLoss.getD 0)
  { global_accuracy :=
      if accuracies.isEmpty then 0
      else accuracies.sum / (accuracies.length : ℚ)
    global_loss :=
      if losses.isEmpty then 0
      else losses.sum / (losses.length : ℚ)
    alignment_score :=
      if alignment_losses.isEmpty then 0
      else 1 - alignment_losses.sum / (alignment_losses.length : ℚ) }

/-! ### FabricGateway.parse_fabric_output

The Python ANSI-stripping regex matches `ESC` followed either by one
character in the range 0x40..0x5A or 0x5C..0x5F, or by a CSI sequence:
a literal open bracket, a greedy run of parameter bytes (0x30..0x3F),
a greedy run of intermediate bytes (0x20..0x2F) and one final byte
(0x40..0x7E).  `json.loads` is modelled as an abstract decode function
`String → Option α` (`none` = `JSONDecodeError`). -/

/-- Final byte of a CSI sequence (0x40..0x7E). -/
def ansiFinal (c : Char) : Bool := decide (0x40 ≤ c.toNat ∧ c.toNat ≤ 0x7E)

/-- Parameter byte of a CSI sequence (0x30..0x3F). -/
def ansiParam (c : Char) : Bool := decide (0x30 ≤ c.toNat ∧ c.toNat ≤ 0x3F)

/-- Intermediate byte of a CSI sequence (0x20..0x2F). -/
def ansiInter (c : Char) : Bool := decide (0x20 ≤ c.toNat ∧ c.toNat ≤ 0x2F)

/-- Single-character escape (0x40..0x5A or 0x5C..0x5F). -/
def ansiSingle (c : Char) : Bool :=
  decide ((0x40 ≤ c.toNat ∧ c.toNat ≤ 0x5A) ∨ (0x5C ≤ c.toNat ∧ c.toNat ≤ 0x5F))

/-- Try to match the body of the escape-sequence regex right after an
`ESC` character; on success return the remaining characters.  The
greedy byte runs never benefit from backtracking because the three
character classes are disjoint. -/
def matchEsc : List Char → Option (List Char)
  | [] => none
  | c :: cs =>
    if c = '[' then
      match (cs.dropWhile ansiParam).dropWhile ansiInter with
      | d :: rest => if ansiFinal d then some rest else none
      | [] => none
    else if ansiSingle c then some cs else none

/-- Termination bound for the ANSI scan: a successful match consumes a
suffix of its input. -/
def matchEsc_length_le (cs rest : List Char)
    (h : matchEsc cs = some rest) : rest.length ≤ cs.length := by
  cases cs with
  | nil => simp [matchEsc] at h
  | cons c cs' =>
    have h1 : (cs'.dropWhile ansiParam).length ≤ cs'.length :=
      (List.dropWhile_sublist ansiParam).length_le
    have h2 : ((cs'.dropWhile ansiParam).dropWhile ansiInter).length ≤
        (cs'.dropWhile ansiParam).length :=
      (List.dropWhile_sublist ansiInter).length_le
    simp only [matchEsc] at h
    split at h
    · rename_i hm
      split at h
      · rename_i d rest' hcons
        split at h
        · cases h
          rw [hcons] at h2
          simp only [List.length_cons] at h2 ⊢
          omega
        · cases h
      · cases h
    · split at h
      · cases h
        simp only [List.length_cons]
        omega
      · cases h

/-- `re.sub` with the ANSI regex: scan left to right, drop every match
(all matches begin with `ESC`, so only `ESC` positions can match).
Structural recursion on a fuel argument; every step consumes at least
one character and `matchEsc` only ever returns a suffix
(`matchEsc_length_le`), so fuel `cs.length` never runs out — see
`stripAnsiGo_fuel` below. -/
def stripAnsiGo : ℕ → List Char → List Char
  | _, [] => []
  | 0, rest => rest
  | fuel + 1, c :: rest =>
    if c = '\x1B' then
      match matchEsc rest with
      | some rest2 => stripAnsiGo fuel rest2
      | none => c :: stripAnsiGo fuel rest
    else c :: stripAnsiGo fuel rest

def stripAnsi (s : String) : String :=
  String.mk (stripAnsiGo s.data.length s.data)

/-- Python's `str.strip` whitespace set: space, tab, LF, CR, VT, FF. -/
def isPySpace (c : Char) : Bool :=
  decide (c = ' ' ∨ c = '\t' ∨ c = '\n' ∨ c = '\r' ∨ c = '\x0B' ∨ c = '\x0C')

/-- `str.strip()` on the character-list representation. -/
def trimChars (cs : List Char) : List Char :=
  ((cs.dropWhile isPySpace).reverse.dropWhile isPySpace).reverse

/-- `line.strip()`. -/
def pyStrip (s : String) : String := String.mk (trimChars s.data)

/-- `str.split('\n')`: no collapsing of adjacent separators, the empty
string yields one empty field. -/
def splitNl : List Char → List (List Char)
  | [] => [[]]
  | c :: rest =>
    let r := splitNl rest
    if c = '\n' then [] :: r
    else
      match r with
      | [] => [[c]]
      | g :: gs => (c :: g) :: gs

/-- `clean_output.strip().split('\n')` of `parse_fabric_output`. -/
def linesOf (output : String) : List String :=
  (splitNl (trimChars (stripAnsiGo output.data.length output.data))).map
    String.mk

/-- `line.startswith(c)` for a one-character pattern. -/
def headIs (s : String) (c : Char) : Bool :=
  match s.data with
  | [] => false
  | c' :: _ => c' = c

/-- Return type of `parse_fabric_output`: a decoded structured value or
a plain string. -/
inductive ParseOut (α : Type) where
  | json (a : α)
  | raw (s : String)
deriving DecidableEq

/-- First loop of `parse_fabric_output`: top-to-bottom, first stripped
line that is non-empty, starts with a brace or bracket, and decodes;
a decode failure continues the scan. -/
def scanTop (decode : String → Option α) : List String → Option α
  | [] => none
  | l :: ls =>
    let t := pyStrip l
    if !t.data.isEmpty && (headIs t '\x7b' || headIs t '[') then
      match decode t with
      | some a => some a
      | none => scanTop decode ls
    else scanTop decode ls

/-- Second loop of `parse_fabric_output`: `for line in reversed(lines)`
stops at the FIRST line (from the bottom) whose strip is non-empty:
it returns that line decoded if `json.loads` succeeds, else that line
as a plain string — it never looks at any earlier line. -/
def scanBottom (decode : String → Option α) : List String → Option (ParseOut α)
  | [] => none
  | l :: ls =>
    match scanBottom decode ls with
    | some r => some r
    | none =>
      let t := pyStrip l
      if !t.data.isEmpty then
        some (match decode t with
          | some a => ParseOut.json a
          | none => ParseOut.raw t)
      else none

/-- `FabricGateway.parse_fabric_output`: layered fallback ending with
the original raw text when no non-empty line exists. -/
def parse_fabric_output (decode : String → Option α) (output : String) :
    ParseOut α :=
  match scanTop decode (linesOf output) with
  | some a => ParseOut.json a
  | none =>
    match scanBottom decode (linesOf output) with
    | some r => r
    | none => ParseOut.raw output

/-! ### FabricGateway.invoke_chaincode / query_chaincode

`subprocess.run` is modelled as a transport oracle indexed by the call
number and the timeout argument, so that "calls the transport exactly
once with this deadline" is expressible.  The three transport outcomes
are completion (with exit status, stdout and stderr), the
`subprocess.TimeoutExpired` branch, and any other exception. -/

inductive TransportOutcome where
  | completed (returncode : Int) (stdout stderr : String)
  | timedOut
  | exn (msg : String)
deriving DecidableEq

/-- Return value of `invoke_chaincode`: the dict
`{"success": True, "output": ...}` or `{"success": False, "error": ...}`. -/
inductive InvokeResult where
  | ok (output : String)
  | err (error : String)
deriving DecidableEq

abbrev Transport := ℕ → ℕ → String → List String → TransportOutcome

/-- `invoke_chaincode`: one transport call with deadline 30; non-zero
exit returns the stderr diagnostic, timeout and exception return their
tagged messages.  No branch raises and no branch retries. -/
def invoke_chaincode (transport : Transport) (function : String)
    (args : List String) : InvokeResult :=
  match transport 0 30 function args with
  | TransportOutcome.completed rc stdout stderr =>
    if rc ≠ 0 then InvokeResult.err stderr else InvokeResult.ok stdout
  | TransportOutcome.timedOut => InvokeResult.err "Transaction timeout"
  | TransportOutcome.exn e => InvokeResult.err e

/-- Return value of `query_chaincode`: parsed data or tagged error. -/
inductive QueryResult (α : Type) where
  | ok (data : ParseOut α)
  | err (error : String)
deriving DecidableEq

/-- `query_chaincode`: one transport call with deadline 15; on success
the stdout goes through `parse_fabric_output`. -/
def query_chaincode (decode : String → Option α) (transport : Transport)
    (function : String) (args : List String) : QueryResult α :=
  match transport 0 15 function args with
  | TransportOutcome.completed rc stdout stderr =>
    if rc ≠ 0 then QueryResult.err stderr
    else QueryResult.ok (parse_fabric_output decode stdout)
  | TransportOutcome.timedOut => QueryResult.err "Query timeout"
  | TransportOutcome.exn e => QueryResult.err e

/-! ### The /api/aggregate round (`aggregate_models`)

Fetching one model id through the gateway either fails (unsuccessful
query), yields a payload that does not decode to a record
(`json.loads` failure → `continue`), or yields a model record. -/

inductive FetchOut where
  | failed
  | unparseable
  | model (m : LocalModel)

/-- The fetch loop: failed and unparseable ids are dropped, resolved
models are kept in request order. -/
def resolveModels (fetch : String → FetchOut) (model_ids : List String) :
    List LocalModel :=
  model_ids.filterMap (fun i =>
    match fetch i with
    | FetchOut.model m => some m
    | _ => none)

/-- The argument list committed by the `AggregateModels` invoke:
`json.dumps(model_ids)` (the ORIGINAL request list), the merged
weights and prototypes, and the three metric strings. -/
structure RoundCommit where
  provenance : List String
  agg_weights : WeightMap
  agg_prototypes : WeightMap
  metrics : Metrics
deriving DecidableEq

/-- Observable outcome of the `/api/aggregate` handler up to the
ledger invoke: 400 on an empty id list, 404 when nothing resolved,
500 when the aggregator raises, else the committed invoke arguments. -/
inductive RoundOutcome where
  | badRequest
  | noValidModels
  | serverError
  | committed (c : RoundCommit)
deriving DecidableEq

/-- The `aggregate_models` route body. -/
def aggregate_models (fetch : String → FetchOut) (model_ids : List String)
    (source_weight target_weight alignment_weight : ℚ) : RoundOutcome :=
  if model_ids.isEmpty then RoundOutcome.badRequest
  else
    let local_models := resolveModels fetch model_ids
    if local_models.isEmpty then RoundOutcome.noValidModels
    else
      match aggregate_weights local_models source_weight target_weight,
            aggregate_prototypes local_models alignment_weight with
      | Except.ok w, Except.ok p =>
        RoundOutcome.committed
          ⟨model_ids, w, p, compute_metrics local_models⟩
      | _, _ => RoundOutcome.serverError

/-! ### Concrete fixtures used by witnesses and counterexamples -/

/-- A tiny fragment of `json.loads` sufficient for the concrete parser
inputs below: the literals `true` and `false` decode, every other line
used in the examples (such as a bare word) raises `JSONDecodeError`. -/
def decodeLite (s : String) : Option Bool :=
  if s = "true" then some true
  else if s = "false" then some false
  else none

/-- Source-domain model holding only scalar weight `a = 1`. -/
def mSrcA : LocalModel :=
  ⟨some "source", [("a", JVal.num 1)], [("pa", JVal.num 1)],
    some 1, some (1/2), some (13/10)⟩

/-- Source-domain model holding only scalar weight `b = 2`: its key is
absent from the first source model. -/
def mSrcB : LocalModel :=
  ⟨some "source", [("b", JVal.num 2)], [("pb", JVal.num 2)],
    none, none, none⟩

/-- Source-domain model with vector weight `a = [1, 2]`. -/
def mVecA : LocalModel :=
  ⟨some "source", [("a", JVal.vec [1, 2])], [], none, none, none⟩

/-- Source-domain model with vector weight `a = [3]`: same key,
different length. -/
def mVecB : LocalModel :=
  ⟨some "source", [("a", JVal.vec [3])], [], none, none, none⟩

/-- Model whose domain is neither `source` nor `target`. -/
def mOther : LocalModel :=
  ⟨some "other", [("a", JVal.num 2)], [], none, none, none⟩

/-- Model with every metric field missing. -/
def mBare : LocalModel := ⟨none, [], [], none, none, none⟩

/-- Prototype-only model with key list `[c]`, value 1. -/
def pSame1 : LocalModel :=
  ⟨some "source", [], [("c", JVal.num 1)], none, none, none⟩

/-- Prototype-only model with key list `[c]`, value 3. -/
def pSame2 : LocalModel :=
  ⟨some "target", [], [("c", JVal.num 3)], none, none, none⟩

/-- The same model with the three metric fields explicitly set to 0
(used to state the defaulting behaviour of `m.get(field, 0)`). -/
def withZeroMetrics (m : LocalModel) : LocalModel :=
  { m with
      accuracy := some 0
      loss := some 0
      alignmentLoss := some 0 }

/-- Scalar payload of a `JVal`, when it is one. -/
def toNumOpt : JVal → Option ℚ
  | JVal.num q => some q
  | JVal.vec _ => none

/-- Vector payload of a `JVal`, when it is one. -/
def toVecOpt : JVal → Option (List ℚ)
  | JVal.vec e => some e
  | JVal.num _ => none

/-! ### Helper lemmas about the aggregator -/

theorem lookup_eq_none_iff (w : WeightMap) (k : String) :
    lookup w k = none ↔ k ∉ keys w := by
  induction w with
  | nil => simp [lookup, keys]
  | cons p rest ih =>
    obtain ⟨k', v⟩ := p
    by_cases hk : k' = k
    · subst hk
      simp [lookup, keys]
    · simp [lookup, keys, hk, ih, Ne.symm hk]

theorem splitModels_aux (models : List LocalModel)
    (s t : List WeightMap) :
    models.foldl
      (fun acc m =>
        if m.domain = some "source" then (acc.1 ++ [m.weights], acc.2)
        else (acc.1, acc.2 ++ [m.weights]))
      (s, t) =
    (s ++ (models.filter
        (fun m => decide (m.domain = some "source"))).map
        (fun m => m.weights),
     t ++ (models.filter
        (fun m => !decide (m.domain = some "source"))).map
        (fun m => m.weights)) := by
  induction models generalizing s t with
  | nil => simp
  | cons m ms ih =>
    by_cases hd : m.domain = some "source"
    · simp only [List.foldl_cons, hd, if_pos, List.filter_cons]
      rw [ih]
      simp [hd]
    · simp only [List.foldl_cons, hd, if_neg, List.filter_cons]
      rw [ih]
      simp [hd]

/-- `splitModels` sends exactly the models with domain `source` to the
source partition and every other model to the target partition,
preserving order. -/
theorem splitModels_eq (models : List LocalModel) :
    splitModels models =
      ((models.filter (fun m => decide (m.domain = some "source"))).map
        (fun m => m.weights),
       (models.filter (fun m => !decide (m.domain = some "source"))).map
        (fun m => m.weights)) := by
  unfold splitModels
  rw [splitModels_aux]
  simp

/-- Characterization of the source pass: the result dict has exactly
the requested keys, in order, and each key maps to its aggregate over
the models that have it. -/
theorem srcKeys_ok (ks : List String) (sws : List WeightMap) (sw : ℚ)
    (r : WeightMap) (h : srcKeys ks sws sw = Except.ok r) :
    keys r = ks ∧
    ∀ k ∈ ks, ∃ v, lookup r k = some v ∧
      aggValue (sws.filterMap (fun w => lookup w k)) sw = Except.ok v := by
  induction ks generalizing r with
  | nil =>
    simp only [srcKeys] at h
    cases h
    simp [keys]
  | cons k rest ih =>
    simp only [srcKeys] at h
    split at h
    · cases h
    · rename_i v hv
      split at h
      · cases h
      · rename_i r' hr'
        cases h
        obtain ⟨hkeys, hvals⟩ := ih r' hr'
        constructor
        · simpa [keys] using hkeys
        · intro k' hk'
          by_cases hkk : k = k'
          · subst hkk
            exact ⟨v, by simp [lookup], hv⟩
          · rcases hk' with _ | hk'
            · exact absurd rfl hkk
            · obtain ⟨v', hl', ha'⟩ := hvals k' (by assumption)
              exact ⟨v', by simp [lookup, hkk, hl'], ha'⟩

theorem mem_keys_of_lookup (w : WeightMap) (k : String) (v : JVal)
    (h : lookup w k = some v) : k ∈ keys w := by
  by_contra hk
  rw [(lookup_eq_none_iff w k).mpr hk] at h
  cases h

theorem keys_setVal (w : WeightMap) (k : String) (v : JVal) :
    keys (setVal w k v) = keys w := by
  induction w with
  | nil => rfl
  | cons p rest ih =>
    obtain ⟨k', v'⟩ := p
    by_cases hk : k' = k
    · subst hk
      simp [setVal, keys]
    · simp only [keys] at ih
      simp [setVal, keys, hk, ih]

theorem lookup_setVal_self (w : WeightMap) (k : String) (v : JVal)
    (h : k ∈ keys w) : lookup (setVal w k v) k = some v := by
  induction w with
  | nil => cases h
  | cons p rest ih =>
    obtain ⟨k', v'⟩ := p
    by_cases hk : k' = k
    · subst hk
      simp [setVal, lookup]
    · simp only [keys, List.map_cons, List.mem_cons] at h
      rcases h with h | h
      · exact absurd h.symm hk
      · simp [setVal, lookup, hk, ih h]

theorem lookup_setVal_other (w : WeightMap) (k : String) (v : JVal)
    (k' : String) (h : k' ≠ k) :
    lookup (setVal w k v) k' = lookup w k' := by
  induction w with
  | nil => rfl
  | cons p rest ih =>
    obtain ⟨k'', v''⟩ := p
    by_cases hk : k'' = k
    · subst hk
      simp [setVal, lookup, Ne.symm h, ih]
    · simp [setVal, lookup, hk, ih]

theorem lookup_append_left (w w2 : WeightMap) (k : String) (x : JVal)
    (h : lookup w k = some x) : lookup (w ++ w2) k = some x := by
  induction w with
  | nil => cases h
  | cons p rest ih =>
    obtain ⟨k', v'⟩ := p
    by_cases hk : k' = k
    · subst hk
      simpa [lookup] using h
    · rw [lookup, if_neg hk] at h
      simpa [lookup, hk] using ih h

theorem lookup_append_right (w w2 : WeightMap) (k : String)
    (h : lookup w k = none) : lookup (w ++ w2) k = lookup w2 k := by
  induction w with
  | nil => rfl
  | cons p rest ih =>
    obtain ⟨k', v'⟩ := p
    by_cases hk : k' = k
    · rw [lookup, if_pos hk] at h
      cases h
    · rw [lookup, if_neg hk] at h
      simpa [lookup, hk] using ih h

theorem keys_append (w w2 : WeightMap) :
    keys (w ++ w2) = keys w ++ keys w2 := by
  simp [keys]

/-- Effect of one target-pass key step on the accumulated dict: the key
set gains (at most) `k`; other keys are untouched; a fresh key is bound
to the scaled target mean (`aggValue` with the target weight); an
existing key is bound to the merge of its stored value with the target
contribution (`tgtMerge`). -/
theorem tgtStep_ok (agg : WeightMap) (tws : List WeightMap) (tw : ℚ)
    (k : String) (agg' : WeightMap)
    (h : tgtStep agg tws tw k = Except.ok agg') :
    (∀ k', k' ∈ keys agg' ↔ k' ∈ keys agg ∨ k' = k) ∧
    (∀ k', k' ≠ k → lookup agg' k' = lookup agg k') ∧
    (lookup agg k = none →
      ∃ v, lookup agg' k = some v ∧
        aggValue (tws.filterMap (fun w => lookup w k)) tw = Except.ok v) ∧
    (∀ a, lookup agg k = some a →
      ∃ v, lookup agg' k = some v ∧
        tgtMerge a (tws.filterMap (fun w => lookup w k)) tw =
          Except.ok v) := by
  simp only [tgtStep] at h
  split at h
  · cases h
  · rename_i e tail heq
    split at h
    · cases h
    · rename_i vecs heq2
      split at h
      · rename_i a heq3
        cases h
        have hkm := mem_keys_of_lookup agg k _ heq3
        refine ⟨?_, ?_, ?_, ?_⟩
        · intro k'
          rw [keys_setVal]
          constructor
          · exact Or.inl
          · rintro (hmem | rfl)
            · exact hmem
            · exact hkm
        · intro k' hk'
          exact lookup_setVal_other agg k _ k' hk'
        · intro hn
          rw [heq3] at hn
          cases hn
        · intro a0 ha0
          rw [heq3] at ha0
          cases ha0
          refine ⟨_, lookup_setVal_self agg k _ hkm, ?_⟩
          rw [heq] at heq2 ⊢
          simp only [tgtMerge, heq2]
      · cases h
      · rename_i heq3
        cases h
        refine ⟨?_, ?_, ?_, ?_⟩
        · intro k'
          rw [keys_append]
          simp [keys]
        · intro k' hk'
          cases hl : lookup agg k' with
          | some x => exact lookup_append_left agg _ k' x hl
          | none =>
            rw [lookup_append_right agg _ k' hl]
            simp [lookup, Ne.symm hk']
        · intro _
          refine ⟨JVal.vec ((List.range (minLen vecs)).map
              (fun i => colSum vecs i /
                ((tws.filterMap (fun w => lookup w k)).length : ℚ) * tw)),
            ?_, ?_⟩
          · rw [lookup_append_right agg _ k heq3]
            simp [lookup]
          · rw [heq] at heq2 ⊢
            simp only [aggValue, heq2]
        · intro a0 ha0
          rw [heq3] at ha0
          cases ha0
  · rename_i q tail heq
    split at h
    · cases h
    · rename_i qs heq2
      split at h
      · rename_i a heq3
        cases h
        have hkm := mem_keys_of_lookup agg k _ heq3
        refine ⟨?_, ?_, ?_, ?_⟩
        · intro k'
          rw [keys_setVal]
          constructor
          · exact Or.inl
          · rintro (hmem | rfl)
            · exact hmem
            · exact hkm
        · intro k' hk'
          exact lookup_setVal_other agg k _ k' hk'
        · intro hn
          rw [heq3] at hn
          cases hn
        · intro a0 ha0
          rw [heq3] at ha0
          cases ha0
          refine ⟨_, lookup_setVal_self agg k _ hkm, ?_⟩
          rw [heq] at heq2 ⊢
          simp only [tgtMerge, heq2]
      · cases h
      · rename_i heq3
        cases h
        refine ⟨?_, ?_, ?_, ?_⟩
        · intro k'
          rw [keys_append]
          simp [keys]
        · intro k' hk'
          cases hl : lookup agg k' with
          | some x => exact lookup_append_left agg _ k' x hl
          | none =>
            rw [lookup_append_right agg _ k' hl]
            simp [lookup, Ne.symm hk']
        · intro _
          refine ⟨JVal.num (qs.sum /
              ((tws.filterMap (fun w => lookup w k)).length : ℚ) * tw),
            ?_, ?_⟩
          · rw [lookup_append_right agg _ k heq3]
            simp [lookup]
          · rw [heq] at heq2 ⊢
            simp only [aggValue, heq2]
        · intro a0 ha0
          rw [heq3] at ha0
          cases ha0

/-- Effect of the whole target-pass loop (over a duplicate-free key
list, as Python dict keys are): the final keys are the accumulated
keys plus the processed keys; keys outside the list are untouched;
a listed key absent from the accumulator gets the scaled target mean;
a listed key present in the accumulator gets the merge of its stored
value with the target contribution. -/
theorem tgtKeys_ok (ks : List String) (agg : WeightMap)
    (tws : List WeightMap) (tw : ℚ) (r : WeightMap) (hnd : ks.Nodup)
    (h : tgtKeys ks agg tws tw = Except.ok r) :
    (∀ k, k ∈ keys r ↔ k ∈ keys agg ∨ k ∈ ks) ∧
    (∀ k, k ∉ ks → lookup r k = lookup agg k) ∧
    (∀ k ∈ ks, lookup agg k = none →
      ∃ v, lookup r k = some v ∧
        aggValue (tws.filterMap (fun w => lookup w k)) tw = Except.ok v) ∧
    (∀ k ∈ ks, ∀ a, lookup agg k = some a →
      ∃ v, lookup r k = some v ∧
        tgtMerge a (tws.filterMap (fun w => lookup w k)) tw =
          Except.ok v) := by
  induction ks generalizing agg with
  | nil =>
    simp only [tgtKeys] at h
    cases h
    simp
  | cons k rest ih =>
    rw [List.nodup_cons] at hnd
    simp only [tgtKeys] at h
    split at h
    · cases h
    · rename_i agg' hstep
      obtain ⟨hs1, hs2, hs3, hs4⟩ := tgtStep_ok agg tws tw k agg' hstep
      obtain ⟨hi1, hi2, hi3, hi4⟩ := ih agg' hnd.2 h
      refine ⟨?_, ?_, ?_, ?_⟩
      · intro k'
        rw [hi1, hs1]
        simp [List.mem_cons]
        tauto
      · intro k' hk'
        rw [List.mem_cons, not_or] at hk'
        rw [hi2 k' hk'.2, hs2 k' hk'.1]
      · intro k' hk' hnone
        rw [List.mem_cons] at hk'
        rcases hk' with rfl | hk'
        · obtain ⟨v, hv1, hv2⟩ := hs3 hnone
          exact ⟨v, by rw [hi2 k' hnd.1, hv1], hv2⟩
        · have hne : k' ≠ k := by
            rintro rfl
            exact hnd.1 hk'
          obtain ⟨v, hv1, hv2⟩ := hi3 k' hk' (by rw [hs2 k' hne, hnone])
          exact ⟨v, hv1, hv2⟩
      · intro k' hk' a ha
        rw [List.mem_cons] at hk'
        rcases hk' with rfl | hk'
        · obtain ⟨v, hv1, hv2⟩ := hs4 a ha
          exact ⟨v, by rw [hi2 k' hnd.1, hv1], hv2⟩
        · have hne : k' ≠ k := by
            rintro rfl
            exact hnd.1 hk'
          obtain ⟨v, hv1, hv2⟩ := hi4 k' hk' a (by rw [hs2 k' hne, ha])
          exact ⟨v, hv1, hv2⟩

/-! ### Permutation lemmas for the prototypes aggregation -/

theorem asNums_all_num (l : List JVal)
    (h : ∀ v ∈ l, ∃ q, v = JVal.num q) :
    asNums l = some (l.filterMap toNumOpt) := by
  induction l with
  | nil => simp [asNums]
  | cons v rest ih =>
    obtain ⟨q, rfl⟩ := h v (by simp)
    simp [asNums, toNumOpt, ih (fun x hx => h x (by simp [hx]))]

theorem asNums_none_of_vec (l : List JVal) (e : List ℚ)
    (he : JVal.vec e ∈ l) : asNums l = none := by
  induction l with
  | nil => cases he
  | cons v rest ih =>
    cases v with
    | vec e' => simp [asNums]
    | num q =>
      cases he with
      | tail _ h => simp [asNums, ih h]

theorem asVecs_all_vec (l : List JVal)
    (h : ∀ v ∈ l, ∃ e, v = JVal.vec e) :
    asVecs l = some (l.filterMap toVecOpt) := by
  induction l with
  | nil => simp [asVecs]
  | cons v rest ih =>
    obtain ⟨e, rfl⟩ := h v (by simp)
    simp [asVecs, toVecOpt, ih (fun x hx => h x (by simp [hx]))]

theorem asVecs_none_of_num (l : List JVal) (q : ℚ)
    (hq : JVal.num q ∈ l) : asVecs l = none := by
  induction l with
  | nil => cases hq
  | cons v rest ih =>
    cases v with
    | num q' => simp [asVecs]
    | vec e =>
      cases hq with
      | tail _ h => simp [asVecs, ih h]

theorem minLenAux_eq_foldr (vs : List (List ℚ)) :
    minLenAux vs = vs.foldr
      (fun v acc =>
        match acc with
        | none => some v.length
        | some n => some (min v.length n))
      none := by
  induction vs with
  | nil => simp [minLenAux]
  | cons v rest ih => simp [minLenAux, ih]

theorem minLenAux_perm (vs vs' : List (List ℚ)) (hp : vs.Perm vs') :
    minLenAux vs = minLenAux vs' := by
  rw [minLenAux_eq_foldr, minLenAux_eq_foldr]
  refine hp.foldr_eq' ?_ none
  intro x _ y _ z
  cases z with
  | none => simp [min_comm]
  | some n => simp [min_left_comm]

theorem colSum_perm (vs vs' : List (List ℚ)) (hp : vs.Perm vs') (i : ℕ) :
    colSum vs i = colSum vs' i := by
  unfold colSum
  exact (hp.map (fun v => v.getD i 0)).sum_eq

theorem aggMean_mixed (l : List JVal) (q : ℚ) (e : List ℚ)
    (hq : JVal.num q ∈ l) (he : JVal.vec e ∈ l) :
    aggMean l = Except.error AggErr.typeMismatch := by
  cases l with
  | nil => cases hq
  | cons v rest =>
    cases v with
    | num q' => simp [aggMean, asNums_none_of_vec _ e he]
    | vec e' => simp [aggMean, asVecs_none_of_num _ q hq]

theorem aggMean_perm (l l' : List JVal) (hp : l.Perm l') :
    aggMean l = aggMean l' := by
  cases l with
  | nil =>
    rw [← hp.nil_eq]
  | cons v rest =>
    have hlen := hp.length_eq
    cases l' with
    | nil => simp at hlen
    | cons v' rest' =>
      by_cases hv : ∃ e, JVal.vec e ∈ v :: rest
      · by_cases hn : ∃ q, JVal.num q ∈ v :: rest
        · obtain ⟨e, he⟩ := hv
          obtain ⟨q, hq⟩ := hn
          rw [aggMean_mixed _ q e hq he,
            aggMean_mixed _ q e (hp.mem_iff.mp hq) (hp.mem_iff.mp he)]
        · -- no scalar member: every member is a vector
          have hall : ∀ x ∈ v :: rest, ∃ e, x = JVal.vec e := by
            intro x hx
            cases x with
            | num q => exact absurd ⟨q, hx⟩ hn
            | vec e => exact ⟨e, rfl⟩
          have hall' : ∀ x ∈ v' :: rest', ∃ e, x = JVal.vec e :=
            fun x hx => hall x (hp.mem_iff.mpr hx)
          obtain ⟨e, rfl⟩ := hall v (by simp)
          obtain ⟨e', rfl⟩ := hall' v' (by simp)
          have hperm : ((JVal.vec e :: rest).filterMap toVecOpt).Perm
              ((JVal.vec e' :: rest').filterMap toVecOpt) :=
            hp.filterMap toVecOpt
          simp only [aggMean, asVecs_all_vec _ hall, asVecs_all_vec _ hall']
          have hcol := colSum_perm _ _ hperm
          have hmin : minLen ((JVal.vec e :: rest).filterMap toVecOpt) =
              minLen ((JVal.vec e' :: rest').filterMap toVecOpt) := by
            unfold minLen
            rw [minLenAux_perm _ _ hperm]
          rw [hmin, hlen]
          simp only [hcol]
      · -- no vector member: every member is a scalar
        have hall : ∀ x ∈ v :: rest, ∃ q, x = JVal.num q := by
          intro x hx
          cases x with
          | vec e => exact absurd ⟨e, hx⟩ hv
          | num q => exact ⟨q, rfl⟩
        have hall' : ∀ x ∈ v' :: rest', ∃ q, x = JVal.num q :=
          fun x hx => hall x (hp.mem_iff.mpr hx)
        obtain ⟨q, rfl⟩ := hall v (by simp)
        obtain ⟨q', rfl⟩ := hall' v' (by simp)
        have hperm : ((JVal.num q :: rest).filterMap toNumOpt).Perm
            ((JVal.num q' :: rest').filterMap toNumOpt) :=
          hp.filterMap toNumOpt
        simp only [aggMean, asNums_all_num _ hall, asNums_all_num _ hall']
        rw [hperm.sum_eq, hlen]

theorem protoKeys_perm (ks : List String) (ps ps' : List WeightMap)
    (hp : ps.Perm ps') : protoKeys ks ps = protoKeys ks ps' := by
  induction ks with
  | nil => simp [protoKeys]
  | cons k rest ih =>
    have hv := aggMean_perm _ _ (hp.filterMap (fun p => lookup p k))
    simp only [protoKeys, hv, ih]

/-! ### Helper lemmas about the output parser -/

/-- The bottom-up loop examines exactly the last line with a non-empty
strip: it maps that single line through the decode-or-raw step and
never looks further up. -/
theorem scanBottom_eq_find (decode : String → Option α) (ls : List String) :
    scanBottom decode ls =
      (ls.reverse.find? (fun l => !(pyStrip l).data.isEmpty)).map
        (fun l =>
          match decode (pyStrip l) with
          | some a => ParseOut.json a
          | none => ParseOut.raw (pyStrip l)) := by
  induction ls with
  | nil => simp [scanBottom]
  | cons l ls ih =>
    simp only [scanBottom, List.reverse_cons, List.find?_append]
    cases hfind : ls.reverse.find? (fun l => !(pyStrip l).data.isEmpty) with
    | some l0 =>
      rw [hfind] at ih
      simp [ih, Option.or]
    | none =>
      rw [hfind] at ih
      simp only [ih, Option.or, List.find?]
      by_cases hl : (pyStrip l).data.isEmpty
      · simp [hl]
      · simp only [Bool.not_eq_true] at hl
        simp [hl]

theorem scanTop_all_blank (decode : String → Option α) (ls : List String)
    (h : ∀ l ∈ ls, (pyStrip l).data = []) : scanTop decode ls = none := by
  induction ls with
  | nil => simp [scanTop]
  | cons l ls ih =>
    have hl : (pyStrip l).data = [] := h l (by simp)
    simp only [scanTop, hl]
    simpa using ih (fun x hx => h x (by simp [hx]))

theorem scanBottom_all_blank (decode : String → Option α) (ls : List String)
    (h : ∀ l ∈ ls, (pyStrip l).data = []) : scanBottom decode ls = none := by
  induction ls with
  | nil => simp [scanBottom]
  | cons l ls ih =>
    have hl : (pyStrip l).data = [] := h l (by simp)
    simp only [scanBottom, ih (fun x hx => h x (by simp [hx])), hl]
    simp

/-! ### Claim theorems -/

/-- Claim C1, counterexample: two source models whose weight keys are
`a` (first model) and `b` (second model).  The key `b` appears in a
source model (`mSrcB`), yet the aggregate contains only `a`: keys are
enumerated from the FIRST model of the partition, not from the union,
so the claim as stated is false. -/
theorem C1_counterexample :
    mSrcB.domain = some "source" ∧ "b" ∈ keys mSrcB.weights ∧
    aggregate_weights [mSrcA, mSrcB] 1 0 = Except.ok [("a", JVal.num 1)] ∧
    "b" ∉ keys [("a", JVal.num 1)] := by
  refine ⟨rfl, by simp [mSrcB, keys], ?_, by simp [keys]⟩
  simp [aggregate_weights, splitModels, srcPass, srcKeys, tgtPass, tgtKeys,
    tgtStep, aggValue, asNums, asVecs, minLen, minLenAux, colSum, lookup,
    keys, setVal, mSrcA, mSrcB]

/-- Claim C1 as amended: `aggregate_weights` enumerates keys from the
FIRST model of each partition.  Writing `(S, T) = splitModels models`
(source partition / everything-else partition, in input order, as
characterized through `List.filter` by `splitModels_eq`): the result
contains a key iff the first model of some partition has it; a key of
the first source model that the target pass does not touch maps to the
mean over exactly the source models that have it, scaled by the source
weight (`aggValue`); a key of the first target model absent from the
source aggregate maps to the target mean scaled by the target weight;
a key of both first models maps to the merge of the stored source
contribution with the target contribution (`tgtMerge`).  In particular
a key appearing only in a LATER model of a partition gets no
contribution from that partition.  The `Nodup` hypothesis is the
Python dict invariant that a dict's keys are unique. -/
theorem C1_first_model_keys (models : List LocalModel) (sw tw : ℚ)
    (S T : List WeightMap) (r : WeightMap)
    (hsplit : splitModels models = (S, T))
    (hnd : (keys (T.headD [])).Nodup)
    (hok : aggregate_weights models sw tw = Except.ok r) :
    (∀ k, k ∈ keys r ↔
      (∃ w0, S.head? = some w0 ∧ k ∈ keys w0) ∨
      (∃ w0, T.head? = some w0 ∧ k ∈ keys w0)) ∧
    (∀ k s0 ss, S = s0 :: ss → k ∈ keys s0 →
      (∀ t0 ts, T = t0 :: ts → k ∉ keys t0) →
      ∃ v, lookup r k = some v ∧
        aggValue (S.filterMap (fun w => lookup w k)) sw = Except.ok v) ∧
    (∀ k t0 ts, T = t0 :: ts → k ∈ keys t0 →
      (∀ s0 ss, S = s0 :: ss → k ∉ keys s0) →
      ∃ v, lookup r k = some v ∧
        aggValue (T.filterMap (fun w => lookup w k)) tw = Except.ok v) ∧
    (∀ k s0 ss t0 ts, S = s0 :: ss → T = t0 :: ts →
      k ∈ keys s0 → k ∈ keys t0 →
      ∃ vs v, aggValue (S.filterMap (fun w => lookup w k)) sw =
          Except.ok vs ∧
        tgtMerge vs (T.filterMap (fun w => lookup w k)) tw =
          Except.ok v ∧
        lookup r k = some v) := by
  unfold aggregate_weights at hok
  rw [hsplit] at hok
  cases S with
  | nil =>
    simp only [srcPass] at hok
    cases T with
    | nil =>
      simp only [tgtPass] at hok
      cases hok
      refine ⟨by simp [keys], ?_, ?_, ?_⟩
      · intro k s0 ss hS
        cases hS
      · intro k t0 ts hT
        cases hT
      · intro k s0 ss t0 ts hS
        cases hS
    | cons t0 ts =>
      simp only [tgtPass] at hok
      have ht := tgtKeys_ok (keys t0) [] (t0 :: ts) tw r
        (by simpa using hnd) hok
      refine ⟨?_, ?_, ?_, ?_⟩
      · intro k
        rw [ht.1]
        simp [keys]
      · intro k s0 ss hS
        cases hS
      · intro k t0' ts' hT hk _
        cases hT
        exact ht.2.2.1 k hk rfl
      · intro k s0 ss t0' ts' hS
        cases hS
  | cons s0 ss =>
    simp only [srcPass] at hok
    cases hs : srcKeys (keys s0) (s0 :: ss) sw with
    | error e =>
      rw [hs] at hok
      simp at hok
    | ok agg =>
      rw [hs] at hok
      obtain ⟨hkeys, hvals⟩ := srcKeys_ok _ _ _ _ hs
      cases T with
      | nil =>
        simp only [tgtPass] at hok
        cases hok
        refine ⟨?_, ?_, ?_, ?_⟩
        · intro k
          rw [hkeys]
          simp
        · intro k s0' ss' hS hk _
          cases hS
          obtain ⟨v, hl, hv⟩ := hvals k hk
          exact ⟨v, hl, hv⟩
        · intro k t0 ts hT
          cases hT
        · intro k s0' ss' t0 ts hS hT
          cases hT
      | cons t0 ts =>
        simp only [tgtPass] at hok
        have ht := tgtKeys_ok (keys t0) agg (t0 :: ts) tw r
          (by simpa using hnd) hok
        refine ⟨?_, ?_, ?_, ?_⟩
        · intro k
          rw [ht.1, hkeys]
          simp
        · intro k s0' ss' hS hk hnt
          cases hS
          have hkt : k ∉ keys t0 := hnt t0 ts rfl
          obtain ⟨v, hl, hv⟩ := hvals k hk
          refine ⟨v, ?_, hv⟩
          rw [ht.2.1 k hkt, hl]
        · intro k t0' ts' hT hk hns
          cases hT
          have hks : k ∉ keys s0 := hns s0 ss rfl
          have hnone : lookup agg k = none := by
            rw [lookup_eq_none_iff, hkeys]
            exact hks
          exact ht.2.2.1 k hk hnone
        · intro k s0' ss' t0' ts' hS hT hks hkt
          cases hS
          cases hT
          obtain ⟨vs, hlagg, hvs⟩ := hvals k hks
          obtain ⟨v, hlr, hm⟩ := ht.2.2.2 k hkt vs hlagg
          exact ⟨vs, v, hvs, hm, hlr⟩

/-- Claim C1 amended, witness: three models — two source models with
keys `a` and `b`, one non-source model with key `a`.  The aggregate
keeps exactly the first models' keys: `a` is merged from both
partitions (1·1 + 2·1 = 3) while `b`, present only in the LATER source
model, is dropped. -/
theorem C1_first_model_keys_witness :
    "b" ∉ keys [("a", JVal.num 3)] ∧
    (∃ vs v,
      aggValue (([[("a", JVal.num 1)], [("b", JVal.num 2)]] :
          List WeightMap).filterMap (fun w => lookup w "a")) 1 =
        Except.ok vs ∧
      tgtMerge vs (([[("a", JVal.num 2)]] :
          List WeightMap).filterMap (fun w => lookup w "a")) 1 =
        Except.ok v ∧
      lookup [("a", JVal.num 3)] "a" = some v) := by
  have hok : aggregate_weights [mSrcA, mSrcB, mOther] 1 1 =
      Except.ok [("a", JVal.num 3)] := by
    simp [aggregate_weights, splitModels, srcPass, srcKeys, tgtPass,
      tgtKeys, tgtStep, aggValue, asNums, asVecs, minLen, minLenAux,
      colSum, lookup, keys, setVal, mSrcA, mSrcB, mOther]
    norm_num
  have hsplit : splitModels [mSrcA, mSrcB, mOther] =
      ([[("a", JVal.num 1)], [("b", JVal.num 2)]], [[("a", JVal.num 2)]]) := by
    simp [splitModels, mSrcA, mSrcB, mOther]
  have h := C1_first_model_keys [mSrcA, mSrcB, mOther] 1 1
    [[("a", JVal.num 1)], [("b", JVal.num 2)]] [[("a", JVal.num 2)]]
    [("a", JVal.num 3)] hsplit (by simp [keys]) hok
  constructor
  · intro hb
    have hcontra := (h.1 "b").mp hb
    simp [keys] at hcontra
  · exact h.2.2.2 "a" [("a", JVal.num 1)] [[("b", JVal.num 2)]]
      [("a", JVal.num 2)] [] rfl rfl (by simp [keys]) (by simp [keys])

/-- Claim C2 (the code contradicts the claim): aggregating two source
models whose vector values for key `a` have lengths 2 and 1 does not
raise any shape-mismatch error; `zip(*values)` silently truncates to
the shorter length and the call returns the one-element mean vector
`[(1 + 3) / 2] = [2]`. -/
theorem C2_zip_truncates_mismatched_vectors :
    aggregate_weights [mVecA, mVecB] 1 0 =
      Except.ok [("a", JVal.vec [2])] := by
  simp [aggregate_weights, splitModels, srcPass, srcKeys, tgtPass, tgtKeys,
    tgtStep, aggValue, asNums, asVecs, minLen, minLenAux, colSum, lookup,
    keys, setVal, mVecA, mVecB, List.range_succ]
  norm_num

/-- Claim C3, counterexample: permuting two models with different
prototype key sets changes the result, because the keys are enumerated
from the FIRST model only. -/
theorem C3_counterexample :
    ([mSrcA, mSrcB].Perm [mSrcB, mSrcA]) ∧
    aggregate_prototypes [mSrcA, mSrcB] (1/10) ≠
      aggregate_prototypes [mSrcB, mSrcA] (1/10) := by
  refine ⟨List.Perm.swap _ _ _, ?_⟩
  have h1 : aggregate_prototypes [mSrcA, mSrcB] (1/10) =
      Except.ok [("pa", JVal.num 1)] := by
    simp [aggregate_prototypes, protoKeys, aggMean, asNums, asVecs, lookup,
      keys, mSrcA, mSrcB]
  have h2 : aggregate_prototypes [mSrcB, mSrcA] (1/10) =
      Except.ok [("pb", JVal.num 2)] := by
    simp [aggregate_prototypes, protoKeys, aggMean, asNums, asVecs, lookup,
      keys, mSrcA, mSrcB]
  rw [h1, h2]
  simp

/-- Claim C3 as amended: `aggregate_prototypes` is invariant under
permutation of the model list PROVIDED every model carries the same
prototype key list (then the first model's key enumeration is
permutation independent, and each per-key mean ranges over a permuted
value multiset). -/
theorem C3_prototypes_perm_same_keys (models models' : List LocalModel)
    (ks : List String) (aw : ℚ) (hp : models.Perm models')
    (hk : ∀ m ∈ models, keys m.prototypes = ks) :
    aggregate_prototypes models aw = aggregate_prototypes models' aw := by
  unfold aggregate_prototypes
  cases models with
  | nil => rw [← hp.nil_eq]
  | cons m0 ms =>
    have hlen := hp.length_eq
    cases models' with
    | nil => simp at hlen
    | cons m0' ms' =>
      simp only [List.map_cons]
      have hk0 : keys m0.prototypes = ks := hk m0 (by simp)
      have hk0' : keys m0'.prototypes = ks := hk m0' (hp.mem_iff.mpr (by simp))
      rw [hk0, hk0']
      exact protoKeys_perm ks _ _
        (by simpa using hp.map (fun m => m.prototypes))

/-- Claim C3 amended, witness: two models sharing the key list `[c]`. -/
theorem C3_prototypes_perm_same_keys_witness :
    aggregate_prototypes [pSame1, pSame2] (1/10) =
      aggregate_prototypes [pSame2, pSame1] (1/10) :=
  C3_prototypes_perm_same_keys [pSame1, pSame2] [pSame2, pSame1] ["c"]
    (1/10) (List.Perm.swap _ _ _)
    (by
      intro m hm
      rw [List.mem_cons] at hm
      rcases hm with rfl | hm
      · rfl
      · rw [List.mem_cons] at hm
        rcases hm with rfl | hm
        · rfl
        · cases hm)

/-- Claim C4, counterexample: in the input two lines `true` and
`hello`, no line is brace- or bracket-shaped, `true` decodes as
structured data, yet the parser returns the plain string `hello` —
the bottom-up loop only ever tries the LAST non-empty line and never
continues upward to a decodable one. -/
theorem C4_counterexample :
    decodeLite "true" = some true ∧
    scanTop decodeLite (linesOf "true\nhello") = none ∧
    "true" ∈ linesOf "true\nhello" ∧
    parse_fabric_output decodeLite "true\nhello" = ParseOut.raw "hello" := by
  decide

/-- Claim C4 as amended: when the top-down structured scan finds
nothing, the parser inspects ONLY the last line with a non-empty
strip: that line is returned decoded when it decodes and as a plain
string otherwise; when no non-empty line exists the raw input is
returned.  Lines above the last non-empty one are never tried. -/
theorem C4_last_nonempty_line_only {α : Type} (decode : String → Option α)
    (output : String) (h : scanTop decode (linesOf output) = none) :
    parse_fabric_output decode output =
      match (linesOf output).reverse.find?
          (fun l => !(pyStrip l).data.isEmpty) with
      | none => ParseOut.raw output
      | some l =>
        match decode (pyStrip l) with
        | some a => ParseOut.json a
        | none => ParseOut.raw (pyStrip l) := by
  unfold parse_fabric_output
  rw [h, scanBottom_eq_find]
  cases (linesOf output).reverse.find? (fun l => !(pyStrip l).data.isEmpty) with
  | none => rfl
  | some l => rfl

/-- Claim C4 amended, witness: `x` then `true` — the last non-empty
line decodes, so the parser returns the decoded value. -/
theorem C4_last_nonempty_line_only_witness :
    scanTop decodeLite (linesOf "x\ntrue") = none ∧
    parse_fabric_output decodeLite "x\ntrue" = ParseOut.json true := by
  have h := C4_last_nonempty_line_only decodeLite "x\ntrue" (by decide)
  exact ⟨by decide, by rw [h]; decide⟩

/-- Claim C5: both gateway operations map every transport outcome to a
tagged result and never raise: non-zero exit returns the transport's
diagnostic text (stderr), an expired deadline returns the timeout
message, a transport exception returns its message; the deadlines are
30 (invoke) and 15 (query); and each operation consults the transport
exactly once — its result only depends on the first call at its own
deadline, so no internal retry is possible. -/
theorem C5_gateway_tagged_results {α : Type} (decode : String → Option α)
    (transport transport' : Transport) (f : String) (args : List String) :
    (∀ rc out err, transport 0 30 f args =
        TransportOutcome.completed rc out err → rc ≠ 0 →
      invoke_chaincode transport f args = InvokeResult.err err) ∧
    (transport 0 30 f args = TransportOutcome.timedOut →
      invoke_chaincode transport f args =
        InvokeResult.err "Transaction timeout") ∧
    (∀ e, transport 0 30 f args = TransportOutcome.exn e →
      invoke_chaincode transport f args = InvokeResult.err e) ∧
    (transport 0 30 f args = transport' 0 30 f args →
      invoke_chaincode transport f args =
        invoke_chaincode transport' f args) ∧
    (∀ rc out err, transport 0 15 f args =
        TransportOutcome.completed rc out err → rc ≠ 0 →
      query_chaincode decode transport f args = QueryResult.err err) ∧
    (transport 0 15 f args = TransportOutcome.timedOut →
      query_chaincode decode transport f args =
        QueryResult.err "Query timeout") ∧
    (∀ e, transport 0 15 f args = TransportOutcome.exn e →
      query_chaincode decode transport f args = QueryResult.err e) ∧
    (transport 0 15 f args = transport' 0 15 f args →
      query_chaincode decode transport f args =
        query_chaincode decode transport' f args) := by
  refine ⟨?_, ?_, ?_, ?_, ?_, ?_, ?_, ?_⟩
  · intro rc out err h hrc
    simp [invoke_chaincode, h, hrc]
  · intro h
    simp [invoke_chaincode, h]
  · intro e h
    simp [invoke_chaincode, h]
  · intro h
    unfold invoke_chaincode
    rw [h]
  · intro rc out err h hrc
    simp [query_chaincode, h, hrc]
  · intro h
    simp [query_chaincode, h]
  · intro e h
    simp [query_chaincode, h]
  · intro h
    unfold query_chaincode
    rw [h]

/-- Claim C5, witness: a timing-out transport yields the tagged invoke
timeout, an exception-raising transport yields its message through
query. -/
theorem C5_gateway_tagged_results_witness :
    invoke_chaincode (fun _ _ _ _ => TransportOutcome.timedOut)
      "AggregateModels" [] = InvokeResult.err "Transaction timeout" ∧
    query_chaincode (fun _ => (none : Option Bool))
      (fun _ _ _ _ => TransportOutcome.exn "boom") "GetLocalModel" ["m1"] =
      QueryResult.err "boom" :=
  ⟨(C5_gateway_tagged_results (fun _ => (none : Option Bool))
      (fun _ _ _ _ => TransportOutcome.timedOut)
      (fun _ _ _ _ => TransportOutcome.timedOut)
      "AggregateModels" []).2.1 rfl,
   (C5_gateway_tagged_results (fun _ => (none : Option Bool))
      (fun _ _ _ _ => TransportOutcome.exn "boom")
      (fun _ _ _ _ => TransportOutcome.exn "boom")
      "GetLocalModel" ["m1"]).2.2.2.2.2.2.1 "boom" rfl⟩

/-- Claim C6: on a non-empty model list the global accuracy and loss
are the unweighted arithmetic means of the per-model fields (missing
fields default to 0), the alignment score is one minus the mean
alignment loss with no clamping (a mean above 1 forces a negative
score), and the empty list yields the zero metrics record. -/
theorem C6_compute_metrics_means :
    compute_metrics [] = ⟨0, 0, 0⟩ ∧
    ∀ models : List LocalModel, models ≠ [] →
      (compute_metrics models).global_accuracy =
        (models.map (fun m => m.accuracy.getD 0)).sum /
          (models.length : ℚ) ∧
      (compute_metrics models).global_loss =
        (models.map (fun m => m.loss.getD 0)).sum / (models.length : ℚ) ∧
      (compute_metrics models).alignment_score =
        1 - (models.map (fun m => m.alignmentLoss.getD 0)).sum /
          (models.length : ℚ) ∧
      (1 < (models.map (fun m => m.alignmentLoss.getD 0)).sum /
          (models.length : ℚ) →
        (compute_metrics models).alignment_score < 0) := by
  constructor
  · simp [compute_metrics]
  · intro models h
    have hne : (models.isEmpty) = false := by
      cases models
      · exact absurd rfl h
      · rfl
    refine ⟨?_, ?_, ?_, ?_⟩
    · simp [compute_metrics, h]
    · simp [compute_metrics, h]
    · simp [compute_metrics, h]
    · intro hgt
      simp only [compute_metrics, List.map_eq_nil_iff, List.isEmpty_iff, h,
        if_false, List.length_map]
      linarith

/-- Claim C6, witness: one model with alignment loss 13/10 gives the
negative, unclamped score 1 - 13/10. -/
theorem C6_compute_metrics_means_witness :
    (compute_metrics [mSrcA]).alignment_score = 1 - 13/10 := by
  have h := (C6_compute_metrics_means).2 [mSrcA] (by simp)
  rw [h.2.2.1]
  simp [mSrcA]

/-- Claim C7, counterexample: a model whose domain is `other` (neither
`source` nor `target`) contributes to the TARGET partition mean — the
code partitions on `domain == source` versus everything else, not on
`domain == target`.  Under the claimed partition this call would
produce an empty mapping; instead the stray model's value is scaled by
the target weight. -/
theorem C7_counterexample :
    mOther.domain ≠ some "source" ∧ mOther.domain ≠ some "target" ∧
    aggregate_weights [mOther] (6/10) (4/10) =
      Except.ok [("a", JVal.num (4/5))] := by
  refine ⟨by simp [mOther], by simp [mOther], ?_⟩
  simp [aggregate_weights, splitModels, srcPass, srcKeys, tgtPass, tgtKeys,
    tgtStep, aggValue, asNums, asVecs, minLen, minLenAux, colSum, lookup,
    keys, setVal, mOther]
  norm_num

/-- Claim C7 as amended: the source pass ranges over exactly the
models with `domain = source`, and the target pass over exactly the
models whose domain is anything else (a different value or missing),
in input order. -/
theorem C7_domain_split (models : List LocalModel) (sw tw : ℚ) :
    aggregate_weights models sw tw =
      match srcPass
          ((models.filter (fun m => decide (m.domain = some "source"))).map
            (fun m => m.weights)) sw with
      | Except.error e => Except.error e
      | Except.ok agg =>
        tgtPass agg
          ((models.filter (fun m => !decide (m.domain = some "source"))).map
            (fun m => m.weights)) tw := by
  unfold aggregate_weights
  rw [splitModels_eq]

/-- Claim C8: when at least one requested model id resolves and the
aggregation succeeds, the round commits, the aggregates and metrics
are computed over exactly the resolved models, and the committed
provenance is the ORIGINAL full id list. -/
theorem C8_round_commits_full_provenance (fetch : String → FetchOut)
    (ids : List String) (sw tw aw : ℚ) (mid : String) (m : LocalModel)
    (w p : WeightMap) (hmem : mid ∈ ids)
    (hres : fetch mid = FetchOut.model m)
    (hw : aggregate_weights (resolveModels fetch ids) sw tw = Except.ok w)
    (hp : aggregate_prototypes (resolveModels fetch ids) aw = Except.ok p) :
    aggregate_models fetch ids sw tw aw =
      RoundOutcome.committed
        ⟨ids, w, p, compute_metrics (resolveModels fetch ids)⟩ := by
  have hne : ids.isEmpty = false := by
    cases ids
    · cases hmem
    · rfl
  have hmem' : m ∈ resolveModels fetch ids := by
    unfold resolveModels
    exact List.mem_filterMap.mpr ⟨mid, hmem, by rw [hres]⟩
  have hne2 : (resolveModels fetch ids).isEmpty = false := by
    cases hr : resolveModels fetch ids
    · rw [hr] at hmem'
      cases hmem'
    · rfl
  simp [aggregate_models, hne, hne2, hw, hp]

/-- Claim C8, witness: three requested ids of which only `m2`
resolves; the round commits with all three ids as provenance. -/
theorem C8_round_commits_full_provenance_witness :
    aggregate_models
      (fun s => if s = "m2" then FetchOut.model mSrcA else FetchOut.failed)
      ["m1", "m2", "m3"] 1 0 (1/10) =
      RoundOutcome.committed
        ⟨["m1", "m2", "m3"], [("a", JVal.num 1)], [("pa", JVal.num 1)],
          compute_metrics [mSrcA]⟩ := by
  have hres : resolveModels
      (fun s => if s = "m2" then FetchOut.model mSrcA else FetchOut.failed)
      ["m1", "m2", "m3"] = [mSrcA] := by
    simp [resolveModels]
  have h := C8_round_commits_full_provenance
    (fun s => if s = "m2" then FetchOut.model mSrcA else FetchOut.failed)
    ["m1", "m2", "m3"] 1 0 (1/10) "m2" mSrcA
    [("a", JVal.num 1)] [("pa", JVal.num 1)]
    (by simp) (by simp)
    (by
      rw [hres]
      simp [aggregate_weights, splitModels, srcPass, srcKeys, tgtPass,
        tgtKeys, tgtStep, aggValue, asNums, asVecs, minLen, minLenAux,
        colSum, lookup, keys, setVal, mSrcA])
    (by
      rw [hres]
      simp [aggregate_prototypes, protoKeys, aggMean, asNums, asVecs,
        lookup, keys, mSrcA])
  rw [hres] at h
  exact h

/-- Claim C9: the parser is total by construction (every `json.loads`
failure is handled by a fallback), and on input whose cleaned text has
no non-empty line it returns the ORIGINAL raw text unchanged. -/
theorem C9_parse_blank_input_returns_raw {α : Type}
    (decode : String → Option α) (output : String)
    (h : ∀ l ∈ linesOf output, pyStrip l = "") :
    parse_fabric_output decode output = ParseOut.raw output := by
  have h' : ∀ l ∈ linesOf output, (pyStrip l).data = [] := by
    intro l hl
    rw [h l hl]
  simp [parse_fabric_output, scanTop_all_blank decode _ h',
    scanBottom_all_blank decode _ h']

/-- Claim C9, witness: whitespace-only input comes back verbatim. -/
theorem C9_parse_blank_input_returns_raw_witness :
    (∀ l ∈ linesOf "  \n \n", pyStrip l = "") ∧
    parse_fabric_output decodeLite "  \n \n" = ParseOut.raw "  \n \n" :=
  ⟨by decide,
   C9_parse_blank_input_returns_raw decodeLite "  \n \n" (by decide)⟩

/-- Claim C10: a model whose accuracy, loss and alignment-loss fields
are all missing contributes exactly like a model whose fields are all
0, and it still counts in the denominator of every mean. -/
theorem C10_missing_metric_fields_default_zero (m : LocalModel)
    (ms : List LocalModel) (ha : m.accuracy = none) (hl : m.loss = none)
    (hal : m.alignmentLoss = none) :
    compute_metrics (m :: ms) =
      compute_metrics (withZeroMetrics m :: ms) ∧
    (compute_metrics (m :: ms)).global_accuracy =
      (0 + (ms.map (fun m' => m'.accuracy.getD 0)).sum) /
        ((ms.length : ℚ) + 1) := by
  constructor
  · simp [compute_metrics, withZeroMetrics, ha, hl, hal]
  · simp [compute_metrics, ha]

/-- Claim C10, witness: a field-free model next to one with accuracy 1
yields global accuracy (0 + 1) / 2. -/
theorem C10_missing_metric_fields_default_zero_witness :
    compute_metrics [mBare, mSrcA] =
      compute_metrics [withZeroMetrics mBare, mSrcA] ∧
    (compute_metrics [mBare, mSrcA]).global_accuracy = (0 + 1) / 2 := by
  have h := C10_missing_metric_fields_default_zero mBare [mSrcA] rfl rfl rfl
  refine ⟨h.1, ?_⟩
  rw [h.2]
  simp [mSrcA]
  norm_num

end VPSA

